import Mathlib

/-!
Shallow embedding of the display-name ambiguity cache of
`matrix_sdk_base/src/store/ambiguity_map.rs`, together with theorems
checking the natural-language specification against it.

Maps (`BTreeMap`) are embedded as functions into `Option`; sets of user
ids (`BTreeSet<UserId>`) as duplicate-free lists, with insertion and
removal mirroring set semantics.  Fallible `Store` reads are embedded as
`Except StoreError` values, and every store access performed by a call is
additionally recorded in a query log so that the read-through caching
behaviour is observable.
-/

/-- Membership states of a room member event (`MembershipState`). -/
inductive MembershipState
  | Join
  | Invite
  | Leave
  | Ban
  | Knock
  deriving DecidableEq

/-- Content of a member event: membership state and the optional
self-declared display name. -/
structure MemberEventContent where
  membership : MembershipState
  displayname : Option String
  deriving DecidableEq

/-- A member event (`MemberEvent`): event id, sender, subject user
(state key) and content. -/
structure MemberEvent where
  event_id : String
  sender : String
  state_key : String
  content : MemberEventContent
  deriving DecidableEq

/-- A stored profile: an optional display-name override. -/
structure Profile where
  displayname : Option String
  deriving DecidableEq

/-- The delta computed for one member event (`AmbiguityChange`). -/
structure AmbiguityChange where
  disambiguated_member : Option String
  ambiguated_member : Option String
  member_ambiguous : Bool
  deriving DecidableEq, Repr

/-- The localpart of a user id `@local:domain` (`UserId::localpart`). -/
def localpart (u : String) : String :=
  (u.drop 1).takeWhile (fun c => c ≠ ':')

/-- A store error; the payload distinguishes different failures. -/
structure StoreError where
  code : Nat
  deriving DecidableEq

/-- One store access, as recorded in the query log of a call. -/
inductive Query
  | memberEvent (room user : String)
  | profile (room user : String)
  | usersWithDisplayName (room name : String)
  deriving DecidableEq, Repr

/-- The external `Store` interface consumed by the cache: three fallible
read operations. -/
structure Store where
  get_member_event : String → String → Except StoreError (Option MemberEvent)
  get_profile : String → String → Except StoreError (Option Profile)
  get_users_with_display_name : String → String → Except StoreError (List String)

/-- The pending change batch (`StateChanges`), restricted to the two
collections the ambiguity cache reads: members and profiles, each keyed
by room then user. -/
structure StateChanges where
  members : String → String → Option MemberEvent
  profiles : String → String → Option Profile

/-- Insertion into a functional map. -/
def mapInsert {v : Type} (m : String → Option v) (k : String) (x : v) :
    String → Option v :=
  fun q => if q = k then some x else m q

/-- Set insertion on a duplicate-free list (`BTreeSet::insert`). -/
def setInsert (users : List String) (u : String) : List String :=
  if u ∈ users then users else users ++ [u]

/-- An ambiguity group (`AmbiguityMap`): one display name together with
the set of users currently carrying it. -/
structure AmbiguityMap where
  display_name : String
  users : List String
  deriving DecidableEq

/-- Number of users in the group (`AmbiguityMap::user_count`). -/
def AmbiguityMap.user_count (m : AmbiguityMap) : Nat :=
  m.users.length

/-- Removal (`AmbiguityMap::remove`): removes the user from the set; if
the set's size is 1 afterwards, also yields the sole remaining user. -/
def AmbiguityMap.remove (m : AmbiguityMap) (user_id : String) :
    AmbiguityMap × Option String :=
  let users := m.users.filter (fun u => u ≠ user_id)
  (⟨m.display_name, users⟩,
    if users.length = 1 then users.head? else none)

/-- Insertion (`AmbiguityMap::add`): if the set's size before insertion
is 1, yields that pre-existing sole user; then inserts the user. -/
def AmbiguityMap.add (m : AmbiguityMap) (user_id : String) :
    AmbiguityMap × Option String :=
  let ambiguous_user :=
    if m.users.length = 1 then m.users.head? else none
  (⟨m.display_name, setInsert m.users user_id⟩, ambiguous_user)

/-- Ambiguity test (`AmbiguityMap::is_ambiguous`): more than one user. -/
def AmbiguityMap.is_ambiguous (m : AmbiguityMap) : Bool :=
  m.user_count > 1

/-- The ambiguity cache (`AmbiguityCache`): the store handle, the
per-room map from display name to user set, and the per-room, per-event
ledger of already-computed deltas. -/
structure AmbiguityCache where
  store : Store
  cache : String → Option (String → Option (List String))
  changes : String → Option (String → Option AmbiguityChange)

/-- Construction (`AmbiguityCache::new`). -/
def AmbiguityCache.new (store : Store) : AmbiguityCache :=
  ⟨store, fun _ => none, fun _ => none⟩

/-- Lookup of a (room, display name) group in the cache. -/
def AmbiguityCache.cacheLookup (self : AmbiguityCache) (room name : String) :
    Option (List String) :=
  (self.cache room).bind (fun m => m name)

/-- Lookup of a (room, event id) recorded delta in the ledger. -/
def AmbiguityCache.changeLookup (self : AmbiguityCache) (room event_id : String) :
    Option AmbiguityChange :=
  (self.changes room).bind (fun m => m event_id)

/-- The `cache.entry(room_id).or_insert_with(BTreeMap::new)` step: makes
sure the room has an entry (inserting an empty map when absent) and
yields that entry. -/
def AmbiguityCache.orInsertRoom (self : AmbiguityCache) (room_id : String) :
    AmbiguityCache × (String → Option (List String)) :=
  match self.cache room_id with
  | some m => (self, m)
  | none =>
    ({ self with cache := mapInsert self.cache room_id (fun _ => none) },
      fun _ => none)

/-- Read-through lookup of the user set for one display name: consult
the in-room cache entry, and on a miss query
`Store::get_users_with_display_name` (the result is not written back to
the cache here). -/
def AmbiguityCache.lookupOrQuery (self : AmbiguityCache) (room_id name : String) :
    AmbiguityCache × List Query × Except StoreError (List String) :=
  let s1 := (self.orInsertRoom room_id).1
  match (self.orInsertRoom room_id).2 name with
  | some u => (s1, [], Except.ok u)
  | none =>
    match self.store.get_users_with_display_name room_id name with
    | Except.error e =>
      (s1, [Query.usersWithDisplayName room_id name], Except.error e)
    | Except.ok u =>
      (s1, [Query.usersWithDisplayName room_id name], Except.ok u)

/-- Resolution of the prior member event for the subject user: prefer
the pending change batch, else consult the store. -/
def resolveOldEvent (store : Store) (changes : StateChanges)
    (room_id : String) (member_event : MemberEvent) :
    List Query × Except StoreError (Option MemberEvent) :=
  match changes.members room_id member_event.state_key with
  | some m => ([], Except.ok (some m))
  | none =>
    ([Query.memberEvent room_id member_event.state_key],
      store.get_member_event room_id member_event.state_key)

/-- Resolution of the old display name: when a prior Join/Invite member
event exists, the name is taken from, in order, the pending change
batch's profile, the stored profile, the prior event's embedded display
name, and finally the localpart of the user id. -/
def resolveOldDisplayName (store : Store) (changes : StateChanges)
    (room_id : String) (member_event : MemberEvent) :
    List Query × Except StoreError (Option String) :=
  let r0 := resolveOldEvent store changes room_id member_event
  match r0.2 with
  | Except.error e => (r0.1, Except.error e)
  | Except.ok none => (r0.1, Except.ok none)
  | Except.ok (some event) =>
    if event.content.membership = MembershipState.Join ∨
        event.content.membership = MembershipState.Invite then
      match (changes.profiles room_id member_event.state_key).bind
          Profile.displayname with
      | some d => (r0.1, Except.ok (some d))
      | none =>
        match store.get_profile room_id member_event.state_key with
        | Except.error e =>
          (r0.1 ++ [Query.profile room_id member_event.state_key],
            Except.error e)
        | Except.ok p =>
          let display_name :=
            match p.bind Profile.displayname with
            | some d => some d
            | none => event.content.displayname
          (r0.1 ++ [Query.profile room_id member_event.state_key],
            Except.ok (some (display_name.getD (localpart event.state_key))))
    else (r0.1, Except.ok none)

/-- The old-group lookup step of `AmbiguityCache::get`: when an old
display name was resolved, fetch its user set read-through. -/
def AmbiguityCache.oldStep (self : AmbiguityCache) (room_id : String)
    (old_display_name : Option String) :
    AmbiguityCache × List Query × Except StoreError (Option AmbiguityMap) :=
  match old_display_name with
  | none => (self, [], Except.ok none)
  | some old_name =>
    match (self.lookupOrQuery room_id old_name).2.2 with
    | Except.error e =>
      ((self.lookupOrQuery room_id old_name).1,
        (self.lookupOrQuery room_id old_name).2.1, Except.error e)
    | Except.ok u =>
      ((self.lookupOrQuery room_id old_name).1,
        (self.lookupOrQuery room_id old_name).2.1,
        Except.ok (some ⟨old_name, u⟩))

/-- The new display name chosen for an inbound Join/Invite event: the
self-declared candidate (falling back to the localpart), except that a
name asserted by a different sender is discarded in favour of the
previously resolved old name when one exists. -/
def newDisplayName (member_event : MemberEvent)
    (old_display_name : Option String) : String :=
  let new :=
    member_event.content.displayname.getD (localpart member_event.state_key)
  if member_event.sender = member_event.state_key then new
  else old_display_name.getD new

/-- The new-group lookup step of `AmbiguityCache::get`: for an inbound
Join/Invite event, determine the new display name (applying the trust
policy against the old resolved name) and fetch its user set
read-through. -/
def AmbiguityCache.newStep (s1 : AmbiguityCache) (room_id : String)
    (member_event : MemberEvent) (old_display_name : Option String) :
    AmbiguityCache × List Query × Except StoreError (Option AmbiguityMap) :=
  if member_event.content.membership = MembershipState.Join ∨
      member_event.content.membership = MembershipState.Invite then
    match (s1.lookupOrQuery room_id
        (newDisplayName member_event old_display_name)).2.2 with
    | Except.error e =>
      ((s1.lookupOrQuery room_id
          (newDisplayName member_event old_display_name)).1,
        (s1.lookupOrQuery room_id
          (newDisplayName member_event old_display_name)).2.1,
        Except.error e)
    | Except.ok u =>
      ((s1.lookupOrQuery room_id
          (newDisplayName member_event old_display_name)).1,
        (s1.lookupOrQuery room_id
          (newDisplayName member_event old_display_name)).2.1,
        Except.ok (some ⟨newDisplayName member_event old_display_name, u⟩))
  else (s1, [], Except.ok none)

/-- The name-resolution phase (`AmbiguityCache::get`): computes the old
and new ambiguity groups for the event, reading the pending change
batch, the store and the cache; the only mutation of the cache state is
the insertion of empty per-room scaffold entries by `orInsertRoom`. -/
def AmbiguityCache.get (self : AmbiguityCache) (changes : StateChanges)
    (room_id : String) (member_event : MemberEvent) :
    AmbiguityCache × List Query ×
      Except StoreError (Option AmbiguityMap × Option AmbiguityMap) :=
  let r0 := resolveOldDisplayName self.store changes room_id member_event
  match r0.2 with
  | Except.error e => (self, r0.1, Except.error e)
  | Except.ok old_display_name =>
    match (self.oldStep room_id old_display_name).2.2 with
    | Except.error e =>
      ((self.oldStep room_id old_display_name).1,
        r0.1 ++ (self.oldStep room_id old_display_name).2.1, Except.error e)
    | Except.ok old_map =>
      match ((self.oldStep room_id old_display_name).1.newStep room_id
          member_event old_display_name).2.2 with
      | Except.error e =>
        (((self.oldStep room_id old_display_name).1.newStep room_id
            member_event old_display_name).1,
          r0.1 ++ (self.oldStep room_id old_display_name).2.1 ++
            ((self.oldStep room_id old_display_name).1.newStep room_id
              member_event old_display_name).2.1,
          Except.error e)
      | Except.ok new_map =>
        (((self.oldStep room_id old_display_name).1.newStep room_id
            member_event old_display_name).1,
          r0.1 ++ (self.oldStep room_id old_display_name).2.1 ++
            ((self.oldStep room_id old_display_name).1.newStep room_id
              member_event old_display_name).2.1,
          Except.ok (old_map, new_map))

/-- The pure mutation phase of `handle_event`: removal from the old
group, insertion into the new group, and the resulting delta. -/
def applyMaps (old_map new_map : Option AmbiguityMap) (user : String) :
    Option AmbiguityMap × Option AmbiguityMap × AmbiguityChange :=
  let oldRes : Option AmbiguityMap × Option String :=
    match old_map with
    | some o => ((o.remove user).1, (o.remove user).2)
    | none => (none, none)
  let newRes : Option AmbiguityMap × Option String :=
    match new_map with
    | some n => ((n.add user).1, (n.add user).2)
    | none => (none, none)
  (oldRes.1, newRes.1,
    ⟨oldRes.2, newRes.2,
      (newRes.1.map AmbiguityMap.is_ambiguous).getD false⟩)

/-- Commit of the two groups back into the cache under their display
names (`AmbiguityCache::update`); the room entry is created if absent
and never removed, and groups are re-inserted even when empty. -/
def AmbiguityCache.update (self : AmbiguityCache) (room_id : String)
    (old_map new_map : Option AmbiguityMap) : AmbiguityCache :=
  let entry0 :=
    match self.cache room_id with
    | some m => m
    | none => fun _ => none
  let entry1 :=
    match old_map with
    | some old => mapInsert entry0 old.display_name old.users
    | none => entry0
  let entry2 :=
    match new_map with
    | some nw => mapInsert entry1 nw.display_name nw.users
    | none => entry1
  { self with cache := mapInsert self.cache room_id entry2 }

/-- Recording of a delta in the ledger (`AmbiguityCache::add_change`). -/
def AmbiguityCache.add_change (self : AmbiguityCache) (room_id event_id : String)
    (change : AmbiguityChange) : AmbiguityCache :=
  let entry :=
    match self.changes room_id with
    | some m => m
    | none => fun _ => none
  { self with
    changes := mapInsert self.changes room_id (mapInsert entry event_id change) }

/-- The same-name test of `handle_event`: both groups resolved and
their display names textually equal. -/
def sameNames (old_map new_map : Option AmbiguityMap) : Bool :=
  match old_map, new_map with
  | some a, some b => a.display_name == b.display_name
  | _, _ => false

/-- The entry point (`AmbiguityCache::handle_event`): idempotency gate,
name resolution, same-name short-circuit, group mutation, commit and
ledger record.  Returns the updated cache state, the query log of the
call, and the `Result<()>` outcome. -/
def AmbiguityCache.handle_event (self : AmbiguityCache) (changes : StateChanges)
    (room_id : String) (member_event : MemberEvent) :
    AmbiguityCache × List Query × Except StoreError Unit :=
  if ((self.changes room_id).map
      (fun c => (c member_event.event_id).isSome)).getD false then
    (self, [], Except.ok ())
  else
    let g := self.get changes room_id member_event
    match g.2.2 with
    | Except.error e => (g.1, g.2.1, Except.error e)
    | Except.ok maps =>
      if sameNames maps.1 maps.2 then
        (g.1, g.2.1, Except.ok ())
      else
        let res := applyMaps maps.1 maps.2 member_event.state_key
        let s2 := g.1.update room_id res.1 res.2.1
        (s2.add_change room_id member_event.event_id res.2.2, g.2.1,
          Except.ok ())

/-- A store for the ambiguation scenario: nobody has a stored member
event or profile; user a currently carries the name Bob. -/
def storeBob : Store :=
  ⟨fun _ _ => Except.ok none,
   fun _ _ => Except.ok none,
   fun _ n => Except.ok (if n = "Bob" then ["a"] else [])⟩

/-- An empty pending change batch. -/
def noChanges : StateChanges :=
  ⟨fun _ _ => none, fun _ _ => none⟩

/-- Member event: user b joins, self-sent, declaring the name Bob. -/
def evJoinBob : MemberEvent :=
  ⟨"e1", "b", "b", ⟨MembershipState.Join, some "Bob"⟩⟩

/-- Result of handling the ambiguation scenario from a fresh cache. -/
def resBob : AmbiguityCache × List Query × Except StoreError Unit :=
  (AmbiguityCache.new storeBob).handle_event noChanges "r" evJoinBob

/-- A pending change batch in which user u is already joined in room r
with display name Bob. -/
def changesU : StateChanges :=
  ⟨fun r u =>
      if r = "r" ∧ u = "u" then
        some ⟨"e0", "u", "u", ⟨MembershipState.Join, some "Bob"⟩⟩
      else none,
   fun _ _ => none⟩

/-- Member event: user u re-joins, self-sent, still named Bob. -/
def evSameBob : MemberEvent :=
  ⟨"e2", "u", "u", ⟨MembershipState.Join, some "Bob"⟩⟩

/-- A store in which user u carries the name Bob. -/
def storeU : Store :=
  ⟨fun _ _ => Except.ok none,
   fun _ _ => Except.ok none,
   fun _ n => Except.ok (if n = "Bob" then ["u"] else [])⟩

/-- Result of handling the same-name no-op scenario from a fresh cache. -/
def resSame : AmbiguityCache × List Query × Except StoreError Unit :=
  (AmbiguityCache.new storeU).handle_event changesU "r" evSameBob

/-- Result of replaying the same event (same event id) right after. -/
def resReplay : AmbiguityCache × List Query × Except StoreError Unit :=
  resSame.1.handle_event changesU "r" evSameBob

/-- A store whose display-name index always fails. -/
def storeFail : Store :=
  ⟨fun _ _ => Except.ok none,
   fun _ _ => Except.ok none,
   fun _ _ => Except.error ⟨7⟩⟩

/-- Result of handling a join when the display-name index fails. -/
def resFail : AmbiguityCache × List Query × Except StoreError Unit :=
  (AmbiguityCache.new storeFail).handle_event noChanges "r" evJoinBob

/-- Member event: user c joins, self-sent, declaring the fresh name Zed. -/
def evJoinZed : MemberEvent :=
  ⟨"e1", "c", "c", ⟨MembershipState.Join, some "Zed"⟩⟩

/-- Result of handling the fresh-name join from a fresh cache. -/
def resZed : AmbiguityCache × List Query × Except StoreError Unit :=
  (AmbiguityCache.new storeBob).handle_event noChanges "r" evJoinZed

/-- A cache whose room r already has the name Bob seeded with user u. -/
def seededBob : AmbiguityCache :=
  ⟨storeU,
   mapInsert (fun _ => none) "r" (mapInsert (fun _ => none) "Bob" ["u"]),
   fun _ => none⟩

/-- A cache that already has a recorded delta for event e2 in room r. -/
def recordedCache : AmbiguityCache :=
  (AmbiguityCache.new storeU).add_change "r" "e2" ⟨none, none, false⟩

/-- A store in which user u carries the name Alice. -/
def storeAlice : Store :=
  ⟨fun _ _ => Except.ok none,
   fun _ _ => Except.ok none,
   fun _ n => Except.ok (if n = "Alice" then ["u"] else [])⟩

/-- A pending change batch in which user u is joined in room r with
display name Alice. -/
def changesAlice : StateChanges :=
  ⟨fun r u =>
      if r = "r" ∧ u = "u" then
        some ⟨"e0", "u", "u", ⟨MembershipState.Join, some "Alice"⟩⟩
      else none,
   fun _ _ => none⟩

/-- Member event for subject u authored by the different sender v,
asserting the display name Eve. -/
def evForged : MemberEvent :=
  ⟨"e6", "v", "u", ⟨MembershipState.Join, some "Eve"⟩⟩

/-- State after the resolution phase of the same-name scenario. -/
def sSame1 : AmbiguityCache :=
  ((AmbiguityCache.new storeU).get changesU "r" evSameBob).1

/-- State after the resolution phase of the ambiguation scenario. -/
def sBob1 : AmbiguityCache :=
  ((AmbiguityCache.new storeBob).get noChanges "r" evJoinBob).1

/-- State after the resolution phase of the forged-sender scenario. -/
def sAlice1 : AmbiguityCache :=
  ((AmbiguityCache.new storeAlice).get changesAlice "r" evForged).1

/-- The room-entry step leaves the ledger untouched. -/
theorem orInsertRoom_changes (self : AmbiguityCache) (room : String) :
    ((self.orInsertRoom room).1).changes = self.changes := by
  cases h : self.cache room <;> simp [AmbiguityCache.orInsertRoom, h]

/-- The room-entry step leaves the store handle untouched. -/
theorem orInsertRoom_store (self : AmbiguityCache) (room : String) :
    ((self.orInsertRoom room).1).store = self.store := by
  cases h : self.cache room <;> simp [AmbiguityCache.orInsertRoom, h]

/-- The room-entry step changes no (room, name) group lookup. -/
theorem orInsertRoom_cacheLookup (self : AmbiguityCache) (room r n : String) :
    ((self.orInsertRoom room).1).cacheLookup r n = self.cacheLookup r n := by
  cases h : self.cache room with
  | some m => simp [AmbiguityCache.orInsertRoom, h]
  | none =>
    simp only [AmbiguityCache.orInsertRoom, h, AmbiguityCache.cacheLookup,
      mapInsert]
    by_cases hr : r = room
    · subst hr; simp [h]
    · simp [hr]

/-- The entry handed out by the room-entry step agrees with the group
lookup on the original state. -/
theorem orInsertRoom_entry (self : AmbiguityCache) (room n : String) :
    ((self.orInsertRoom room).2) n = self.cacheLookup room n := by
  cases h : self.cache room <;>
    simp [AmbiguityCache.orInsertRoom, AmbiguityCache.cacheLookup, h]

/-- Read-through lookup leaves the ledger untouched. -/
theorem lookupOrQuery_changes (self : AmbiguityCache) (room name : String) :
    ((self.lookupOrQuery room name).1).changes = self.changes := by
  unfold AmbiguityCache.lookupOrQuery
  cases h : (self.orInsertRoom room).2 name with
  | some u => simp [h, orInsertRoom_changes]
  | none =>
    cases h2 : self.store.get_users_with_display_name room name with
    | error e => simp [h, h2, orInsertRoom_changes]
    | ok u => simp [h, h2, orInsertRoom_changes]

/-- Read-through lookup leaves the store handle untouched. -/
theorem lookupOrQuery_store (self : AmbiguityCache) (room name : String) :
    ((self.lookupOrQuery room name).1).store = self.store := by
  unfold AmbiguityCache.lookupOrQuery
  cases h : (self.orInsertRoom room).2 name with
  | some u => simp [h, orInsertRoom_store]
  | none =>
    cases h2 : self.store.get_users_with_display_name room name with
    | error e => simp [h, h2, orInsertRoom_store]
    | ok u => simp [h, h2, orInsertRoom_store]

/-- Read-through lookup changes no (room, name) group lookup. -/
theorem lookupOrQuery_cacheLookup (self : AmbiguityCache)
    (room name r n : String) :
    ((self.lookupOrQuery room name).1).cacheLookup r n =
      self.cacheLookup r n := by
  unfold AmbiguityCache.lookupOrQuery
  cases h : (self.orInsertRoom room).2 name with
  | some u => simp [h, orInsertRoom_cacheLookup]
  | none =>
    cases h2 : self.store.get_users_with_display_name room name with
    | error e => simp [h, h2, orInsertRoom_cacheLookup]
    | ok u => simp [h, h2, orInsertRoom_cacheLookup]

/-- Any query logged by a read-through lookup is the display-name query
for exactly that (room, name), and is only issued on a cache miss. -/
theorem lookupOrQuery_log (self : AmbiguityCache) (room name : String)
    (q : Query) (hq : q ∈ (self.lookupOrQuery room name).2.1) :
    q = Query.usersWithDisplayName room name ∧
      self.cacheLookup room name = none := by
  unfold AmbiguityCache.lookupOrQuery at hq
  cases h : (self.orInsertRoom room).2 name with
  | some u => simp [h] at hq
  | none =>
    have hn : self.cacheLookup room name = none := by
      rw [← orInsertRoom_entry self room name]; exact h
    cases h2 : self.store.get_users_with_display_name room name with
    | error e => simp [h, h2] at hq; exact ⟨hq, hn⟩
    | ok u => simp [h, h2] at hq; exact ⟨hq, hn⟩

/-- The prior-event resolution logs at most the member-event query. -/
theorem resolveOldEvent_log (store : Store) (ch : StateChanges)
    (room : String) (ev : MemberEvent) :
    (resolveOldEvent store ch room ev).1 = [] ∨
    (resolveOldEvent store ch room ev).1 =
      [Query.memberEvent room ev.state_key] := by
  cases h : ch.members room ev.state_key <;> simp [resolveOldEvent, h]

/-- Any query logged by old-display-name resolution is a member-event
or profile query for the subject user. -/
theorem resolveOldDisplayName_log (store : Store) (ch : StateChanges)
    (room : String) (ev : MemberEvent) (q : Query)
    (hq : q ∈ (resolveOldDisplayName store ch room ev).1) :
    q = Query.memberEvent room ev.state_key ∨
      q = Query.profile room ev.state_key := by
  have base : ∀ q', q' ∈ (resolveOldEvent store ch room ev).1 →
      q' = Query.memberEvent room ev.state_key := by
    intro q' hq'
    rcases resolveOldEvent_log store ch room ev with h | h <;> rw [h] at hq' <;>
      simp at hq'
    exact hq'
  unfold resolveOldDisplayName at hq
  cases h0 : (resolveOldEvent store ch room ev).2 with
  | error e => simp only [h0] at hq; exact Or.inl (base q hq)
  | ok oev =>
    cases oev with
    | none => simp only [h0] at hq; exact Or.inl (base q hq)
    | some event =>
      simp only [h0] at hq
      by_cases hm : event.content.membership = MembershipState.Join ∨
          event.content.membership = MembershipState.Invite
      · rw [if_pos hm] at hq
        cases hp : (ch.profiles room ev.state_key).bind Profile.displayname with
        | some d => simp only [hp] at hq; exact Or.inl (base q hq)
        | none =>
          simp only [hp] at hq
          cases hg : store.get_profile room ev.state_key with
          | error e =>
            simp only [hg] at hq
            simp only [List.mem_append, List.mem_singleton] at hq
            rcases hq with hq | hq
            · exact Or.inl (base q hq)
            · exact Or.inr hq
          | ok p =>
            simp only [hg] at hq
            simp only [List.mem_append, List.mem_singleton] at hq
            rcases hq with hq | hq
            · exact Or.inl (base q hq)
            · exact Or.inr hq
      · rw [if_neg hm] at hq; exact Or.inl (base q hq)

/-- The old-group step leaves the ledger and store untouched and
changes no (room, name) group lookup. -/
theorem oldStep_state (self : AmbiguityCache) (room : String)
    (odn : Option String) :
    ((self.oldStep room odn).1).changes = self.changes ∧
    ∀ r n, ((self.oldStep room odn).1).cacheLookup r n =
      self.cacheLookup r n := by
  cases odn with
  | none => exact ⟨rfl, fun r n => rfl⟩
  | some name =>
    unfold AmbiguityCache.oldStep
    cases h : (self.lookupOrQuery room name).2.2 with
    | error e =>
      simp only [h]
      exact ⟨lookupOrQuery_changes self room name,
        fun r n => lookupOrQuery_cacheLookup self room name r n⟩
    | ok u =>
      simp only [h]
      exact ⟨lookupOrQuery_changes self room name,
        fun r n => lookupOrQuery_cacheLookup self room name r n⟩

/-- The new-group step leaves the ledger untouched and changes no
(room, name) group lookup. -/
theorem newStep_state (s1 : AmbiguityCache) (room : String)
    (ev : MemberEvent) (odn : Option String) :
    ((s1.newStep room ev odn).1).changes = s1.changes ∧
    ∀ r n, ((s1.newStep room ev odn).1).cacheLookup r n =
      s1.cacheLookup r n := by
  unfold AmbiguityCache.newStep
  by_cases hm : ev.content.membership = MembershipState.Join ∨
      ev.content.membership = MembershipState.Invite
  · rw [if_pos hm]
    cases h : (s1.lookupOrQuery room (newDisplayName ev odn)).2.2 with
    | error e =>
      simp only [h]
      exact ⟨lookupOrQuery_changes s1 room (newDisplayName ev odn),
        fun r n => lookupOrQuery_cacheLookup s1 room (newDisplayName ev odn) r n⟩
    | ok u =>
      simp only [h]
      exact ⟨lookupOrQuery_changes s1 room (newDisplayName ev odn),
        fun r n => lookupOrQuery_cacheLookup s1 room (newDisplayName ev odn) r n⟩
  · rw [if_neg hm]
    exact ⟨rfl, fun r n => rfl⟩

/-- The old-group step never queries a (room, name) pair that is
already present in the cache. -/
theorem oldStep_no_query (self : AmbiguityCache) (room : String)
    (odn : Option String) (n : String)
    (h : (self.cacheLookup room n).isSome = true) :
    Query.usersWithDisplayName room n ∉ (self.oldStep room odn).2.1 := by
  cases odn with
  | none => simp [AmbiguityCache.oldStep]
  | some name =>
    unfold AmbiguityCache.oldStep
    cases hq : (self.lookupOrQuery room name).2.2 with
    | error e =>
      simp only [hq]
      intro hmem
      rcases lookupOrQuery_log self room name _ hmem with ⟨heq, hnone⟩
      injection heq with h1 h2
      subst h2
      rw [hnone] at h
      simp at h
    | ok u =>
      simp only [hq]
      intro hmem
      rcases lookupOrQuery_log self room name _ hmem with ⟨heq, hnone⟩
      injection heq with h1 h2
      subst h2
      rw [hnone] at h
      simp at h

/-- The new-group step never queries a (room, name) pair that is
already present in the cache. -/
theorem newStep_no_query (s1 : AmbiguityCache) (room : String)
    (ev : MemberEvent) (odn : Option String) (n : String)
    (h : (s1.cacheLookup room n).isSome = true) :
    Query.usersWithDisplayName room n ∉ (s1.newStep room ev odn).2.1 := by
  unfold AmbiguityCache.newStep
  by_cases hm : ev.content.membership = MembershipState.Join ∨
      ev.content.membership = MembershipState.Invite
  · rw [if_pos hm]
    cases hq : (s1.lookupOrQuery room (newDisplayName ev odn)).2.2 with
    | error e =>
      simp only [hq]
      intro hmem
      rcases lookupOrQuery_log s1 room (newDisplayName ev odn) _ hmem with
        ⟨heq, hnone⟩
      injection heq with h1 h2
      subst h2
      rw [hnone] at h
      simp at h
    | ok u =>
      simp only [hq]
      intro hmem
      rcases lookupOrQuery_log s1 room (newDisplayName ev odn) _ hmem with
        ⟨heq, hnone⟩
      injection heq with h1 h2
      subst h2
      rw [hnone] at h
      simp at h
  · rw [if_neg hm]
    simp

/-- A successful old-group step yields a group named by exactly the
resolved old display name. -/
theorem oldStep_shape (self : AmbiguityCache) (room : String)
    (odn : Option String) (om : Option AmbiguityMap)
    (h : (self.oldStep room odn).2.2 = Except.ok om) :
    om.map AmbiguityMap.display_name = odn := by
  cases odn with
  | none =>
    simp only [AmbiguityCache.oldStep] at h
    injection h with h'
    subst h'
    rfl
  | some name =>
    unfold AmbiguityCache.oldStep at h
    cases hq : (self.lookupOrQuery room name).2.2 with
    | error e => simp only [hq] at h; exact Except.noConfusion h
    | ok u =>
      simp only [hq] at h
      injection h with h'
      subst h'
      rfl

/-- A successful new-group step for a Join/Invite event yields a group
named by exactly the trust-policy display name. -/
theorem newStep_shape (s1 : AmbiguityCache) (room : String)
    (ev : MemberEvent) (odn : Option String) (nm : Option AmbiguityMap)
    (hm : ev.content.membership = MembershipState.Join ∨
      ev.content.membership = MembershipState.Invite)
    (h : (s1.newStep room ev odn).2.2 = Except.ok nm) :
    nm.map AmbiguityMap.display_name = some (newDisplayName ev odn) := by
  unfold AmbiguityCache.newStep at h
  rw [if_pos hm] at h
  cases hq : (s1.lookupOrQuery room (newDisplayName ev odn)).2.2 with
  | error e => simp only [hq] at h; exact Except.noConfusion h
  | ok u =>
    simp only [hq] at h
    injection h with h'
    subst h'
    rfl

/-- When the sender is not the subject, the trust policy prefers the
old resolved name and falls back to the candidate only without one. -/
theorem newDisplayName_forged (ev : MemberEvent) (odn : Option String)
    (hs : ev.sender ≠ ev.state_key) :
    newDisplayName ev odn =
      odn.getD (ev.content.displayname.getD (localpart ev.state_key)) := by
  unfold newDisplayName
  rw [if_neg hs]

/-- The resolution phase leaves the ledger untouched and changes no
(room, name) group lookup: at most empty per-room scaffold entries are
inserted. -/
theorem get_state (self : AmbiguityCache) (ch : StateChanges)
    (room : String) (ev : MemberEvent) :
    ((self.get ch room ev).1).changes = self.changes ∧
    ∀ r n, ((self.get ch room ev).1).cacheLookup r n =
      self.cacheLookup r n := by
  unfold AmbiguityCache.get
  cases h0 : (resolveOldDisplayName self.store ch room ev).2 with
  | error e => simp [h0]
  | ok odn =>
    simp only [h0]
    cases h1 : (self.oldStep room odn).2.2 with
    | error e =>
      simp only [h1]
      exact oldStep_state self room odn
    | ok old_map =>
      simp only [h1]
      cases h2 : ((self.oldStep room odn).1.newStep room ev odn).2.2 with
      | error e =>
        simp only [h2]
        refine ⟨?_, fun r n => ?_⟩
        · rw [(newStep_state _ room ev odn).1, (oldStep_state self room odn).1]
        · rw [(newStep_state _ room ev odn).2 r n,
            (oldStep_state self room odn).2 r n]
      | ok new_map =>
        simp only [h2]
        refine ⟨?_, fun r n => ?_⟩
        · rw [(newStep_state _ room ev odn).1, (oldStep_state self room odn).1]
        · rw [(newStep_state _ room ev odn).2 r n,
            (oldStep_state self room odn).2 r n]

/-- The resolution phase never issues a display-name store query for a
(room, name) pair that is already present in the cache. -/
theorem get_no_query (self : AmbiguityCache) (ch : StateChanges)
    (room : String) (ev : MemberEvent) (n : String)
    (h : (self.cacheLookup room n).isSome = true) :
    Query.usersWithDisplayName room n ∉ (self.get ch room ev).2.1 := by
  have hold : ∀ q, q ∈ (resolveOldDisplayName self.store ch room ev).1 →
      q ≠ Query.usersWithDisplayName room n := by
    intro q hq
    rcases resolveOldDisplayName_log self.store ch room ev q hq with h' | h' <;>
      subst h' <;> intro hc <;> exact Query.noConfusion hc
  unfold AmbiguityCache.get
  cases h0 : (resolveOldDisplayName self.store ch room ev).2 with
  | error e =>
    simp only [h0]
    intro hmem
    exact hold _ hmem rfl
  | ok odn =>
    simp only [h0]
    have hpres : (((self.oldStep room odn).1).cacheLookup room n).isSome =
        true := by
      rw [(oldStep_state self room odn).2 room n]; exact h
    cases h1 : (self.oldStep room odn).2.2 with
    | error e =>
      simp only [h1, List.mem_append]
      rintro (hmem | hmem)
      · exact hold _ hmem rfl
      · exact oldStep_no_query self room odn n h hmem
    | ok old_map =>
      simp only [h1]
      cases h2 : ((self.oldStep room odn).1.newStep room ev odn).2.2 with
      | error e =>
        simp only [h2, List.mem_append]
        rintro ((hmem | hmem) | hmem)
        · exact hold _ hmem rfl
        · exact oldStep_no_query self room odn n h hmem
        · exact newStep_no_query _ room ev odn n hpres hmem
      | ok new_map =>
        simp only [h2, List.mem_append]
        rintro ((hmem | hmem) | hmem)
        · exact hold _ hmem rfl
        · exact oldStep_no_query self room odn n h hmem
        · exact newStep_no_query _ room ev odn n hpres hmem

/-- Inserting into a functional map never removes an entry. -/
theorem mapInsert_isSome {v : Type} (m : String → Option v) (k : String)
    (x : v) (q : String) (h : (m q).isSome = true) :
    ((mapInsert m k x) q).isSome = true := by
  unfold mapInsert
  split_ifs <;> simp_all

/-- Committing groups never removes an existing (room, name) entry. -/
theorem update_isSome (s : AmbiguityCache) (room : String)
    (om nm : Option AmbiguityMap) (r n : String)
    (h : (s.cacheLookup r n).isSome = true) :
    (((s.update room om nm).cacheLookup r n).isSome) = true := by
  unfold AmbiguityCache.cacheLookup at h ⊢
  unfold AmbiguityCache.update
  by_cases hr : r = room
  · subst hr
    cases hc : s.cache r with
    | none => rw [hc] at h; simp at h
    | some m =>
      rw [hc] at h
      simp only [Option.bind] at h
      simp only [mapInsert, if_pos rfl, hc, Option.bind]
      cases om with
      | none =>
        cases nm with
        | none => exact h
        | some nw => exact mapInsert_isSome m _ _ n h
      | some old =>
        cases nm with
        | none => exact mapInsert_isSome m _ _ n h
        | some nw =>
          exact mapInsert_isSome _ _ _ n (mapInsert_isSome m _ _ n h)
  · simp only [mapInsert, if_neg hr]
    exact h

/-- Recording a delta leaves the group cache untouched. -/
theorem add_change_cache (s : AmbiguityCache) (room i : String)
    (c : AmbiguityChange) (r n : String) :
    ((s.add_change room i c).cacheLookup r n) = s.cacheLookup r n := rfl

/-- The delta recorded by `add_change` is retrievable under its keys. -/
theorem add_change_lookup_self (s : AmbiguityCache) (room i : String)
    (c : AmbiguityChange) :
    (s.add_change room i c).changeLookup room i = some c := by
  unfold AmbiguityCache.add_change AmbiguityCache.changeLookup
  cases hc : s.changes room <;>
    simp [mapInsert, hc]

/-- Claim C7: for every ambiguity group and users u, v: removal of u
removes exactly u from the set, and `remove u` returns `some v` exactly
when the set's size is 1 after the removal with v the sole remaining
user (and returns nothing otherwise). -/
theorem claim_c7_remove_sole_remaining (m : AmbiguityMap) (u v : String) :
    (v ∈ (m.remove u).1.users ↔ (v ∈ m.users ∧ v ≠ u)) ∧
    ((m.remove u).2 = some v ↔ (m.remove u).1.users = [v]) := by
  unfold AmbiguityMap.remove
  constructor
  · simp
  · simp only []
    by_cases h : (m.users.filter (fun u' => u' ≠ u)).length = 1
    · rw [if_pos h]
      rcases List.length_eq_one.mp h with ⟨a, ha⟩
      rw [ha]
      simp
    · rw [if_neg h]
      constructor
      · intro hc; exact absurd hc (by simp)
      · intro hc; rw [hc] at h; simp at h

/-- Claim C10: adding an already-present user to a singleton group
reports that same user as ambiguated while leaving the set unchanged. -/
theorem claim_c10_add_self_singleton (nm u : String) :
    AmbiguityMap.add ⟨nm, [u]⟩ u = (⟨nm, [u]⟩, some u) := by
  simp [AmbiguityMap.add, setInsert]

/-- Claim C8: in a room where only user a carries the name Bob, a
self-sent join of user b declaring Bob yields the delta with ambiguated
member a and the ambiguity flag set, and the Bob group afterwards holds
both users. -/
theorem claim_c8_ambiguation_trigger :
    resBob.1.changeLookup "r" "e1" =
        some ⟨none, some "a", true⟩ ∧
    resBob.1.cacheLookup "r" "Bob" = some ["a", "b"] ∧
    resBob.2.2 = Except.ok () :=
  ⟨rfl, rfl, rfl⟩

/-- Claim C1, counterexample: in the same-name scenario the call
succeeds but records no entry at all in the idempotency ledger under the
event's id, contrary to the claim that a no-op delta is recorded. -/
theorem claim_c1_counterexample :
    resSame.2.2 = Except.ok () ∧
    resSame.1.changeLookup "r" "e2" = none :=
  ⟨rfl, rfl⟩

/-- Claim C2, counterexample: two calls whose recorded deltas differ
return the very same unit value, so the computed delta is not returned
to the caller. -/
theorem claim_c2_counterexample :
    resBob.2.2 = resZed.2.2 ∧
    resBob.1.changeLookup "r" "e1" ≠ resZed.1.changeLookup "r" "e1" := by
  have h1 : resBob.1.changeLookup "r" "e1" =
      some ⟨none, some "a", true⟩ := rfl
  have h2 : resZed.1.changeLookup "r" "e1" =
      some ⟨none, none, false⟩ := rfl
  refine ⟨rfl, ?_⟩
  rw [h1, h2]
  decide

/-- Claim C3, counterexample: when the display-name index fails, the
error propagates, yet the call commits a fresh (empty) per-room entry
into the cache map, so the cache is not left entirely unchanged. -/
theorem claim_c3_counterexample :
    resFail.2.2 = Except.error ⟨7⟩ ∧
    ((AmbiguityCache.new storeFail).cache "r") = none ∧
    ((resFail.1).cache "r").isSome = true :=
  ⟨rfl, rfl, rfl⟩

/-- Claim C4, counterexample: the same-name scenario references the same
(room, name) pair twice within one call, and the store is queried twice
for it — the first query's result is not seeded into the cache before
the second reference. -/
theorem claim_c4_counterexample :
    resSame.2.1 =
      [Query.profile "r" "u",
        Query.usersWithDisplayName "r" "Bob",
        Query.usersWithDisplayName "r" "Bob"] ∧
    (AmbiguityCache.new storeU).cacheLookup "r" "Bob" = none :=
  ⟨rfl, rfl⟩

/-- Claim C5, counterexample: after a successful same-name call (which
records nothing), replaying the identical event performs the full store
read sequence again instead of returning immediately without
recomputation. -/
theorem claim_c5_counterexample :
    resSame.2.2 = Except.ok () ∧
    resReplay.2.1 =
      [Query.profile "r" "u",
        Query.usersWithDisplayName "r" "Bob",
        Query.usersWithDisplayName "r" "Bob"] :=
  ⟨rfl, rfl⟩
/-- The idempotency-gate condition tests exactly the ledger lookup. -/
theorem gate_eq (self : AmbiguityCache) (room i : String) :
    ((self.changes room).map (fun c => (c i).isSome)).getD false =
      (self.changeLookup room i).isSome := by
  unfold AmbiguityCache.changeLookup
  cases hc : self.changes room <;> simp [hc]

/-- Claim C5 (amended): a call whose event id already has a recorded
delta in the ledger returns immediately: the state is unchanged, no
store query is made and the outcome is success — so a second call with
the same event id after a first call that recorded a delta is a pure
no-op.  (Same-name no-op events record nothing and are therefore
recomputed on replay, as the counterexample shows.) -/
theorem claim_c5_amended (self : AmbiguityCache) (ch : StateChanges)
    (room : String) (ev : MemberEvent)
    (h : (self.changeLookup room ev.event_id).isSome = true) :
    self.handle_event ch room ev = (self, [], Except.ok ()) := by
  unfold AmbiguityCache.handle_event
  rw [gate_eq, if_pos h]

/-- Claim C1 (amended): when both an old and a new display name resolve
and are textually identical, `handle_event` succeeds with no group
membership change — but the no-op is NOT recorded in the idempotency
ledger (the same-name branch returns before `add_change`). -/
theorem claim_c1_amended (self : AmbiguityCache) (ch : StateChanges)
    (room : String) (ev : MemberEvent) (s1 : AmbiguityCache) (l : List Query)
    (a b : AmbiguityMap)
    (hgate : self.changeLookup room ev.event_id = none)
    (hget : self.get ch room ev = (s1, l, Except.ok (some a, some b)))
    (hsame : a.display_name = b.display_name) :
    self.handle_event ch room ev = (s1, l, Except.ok ()) ∧
    (∀ r n, s1.cacheLookup r n = self.cacheLookup r n) ∧
    s1.changes = self.changes := by
  have hng : ¬ (self.changeLookup room ev.event_id).isSome = true := by
    rw [hgate]; simp
  refine ⟨?_, ?_, ?_⟩
  · unfold AmbiguityCache.handle_event
    rw [gate_eq, if_neg hng]
    have hc : sameNames (some a) (some b) = true := by
      simp [sameNames, hsame]
    simp [hget, hc]
  · intro r n
    have hpre := (get_state self ch room ev).2 r n
    rw [hget] at hpre
    exact hpre
  · have hpre := (get_state self ch room ev).1
    rw [hget] at hpre
    exact hpre

/-- Claim C2 (amended): for a successful, non-gated, non-same-name call,
`handle_event` records the computed delta in the ledger keyed by the
event id and returns unit success — the delta reaches the caller via
the ledger, not via the return value. -/
theorem claim_c2_amended (self : AmbiguityCache) (ch : StateChanges)
    (room : String) (ev : MemberEvent) (s1 : AmbiguityCache) (l : List Query)
    (old_map new_map : Option AmbiguityMap)
    (hgate : self.changeLookup room ev.event_id = none)
    (hget : self.get ch room ev = (s1, l, Except.ok (old_map, new_map)))
    (hdiff : sameNames old_map new_map = false) :
    (self.handle_event ch room ev).2.2 = Except.ok () ∧
    (self.handle_event ch room ev).1.changeLookup room ev.event_id =
      some (applyMaps old_map new_map ev.state_key).2.2 := by
  have hng : ¬ (self.changeLookup room ev.event_id).isSome = true := by
    rw [hgate]; simp
  have hmain : self.handle_event ch room ev =
      ((s1.update room (applyMaps old_map new_map ev.state_key).1
          (applyMaps old_map new_map ev.state_key).2.1).add_change room
        ev.event_id (applyMaps old_map new_map ev.state_key).2.2, l,
        Except.ok ()) := by
    unfold AmbiguityCache.handle_event
    rw [gate_eq, if_neg hng]
    simp [hget, hdiff]
  rw [hmain]
  exact ⟨rfl, add_change_lookup_self _ room ev.event_id _⟩

/-- Claim C3 (amended): when any store read fails, the error propagates
and neither the ledger nor any (room, name) group lookup of the cache
is changed; the only possible residue is an empty per-room scaffold
entry (see the counterexample). -/
theorem claim_c3_amended (self : AmbiguityCache) (ch : StateChanges)
    (room : String) (ev : MemberEvent) (s' : AmbiguityCache) (l : List Query)
    (e : StoreError)
    (h : self.handle_event ch room ev = (s', l, Except.error e)) :
    (∀ r n, s'.cacheLookup r n = self.cacheLookup r n) ∧
    s'.changes = self.changes := by
  unfold AmbiguityCache.handle_event at h
  by_cases hg : ((self.changes room).map
      (fun c => (c ev.event_id).isSome)).getD false = true
  · rw [if_pos hg] at h
    exact absurd h (by simp)
  · rw [if_neg hg] at h
    cases h2 : (self.get ch room ev).2.2 with
    | error e2 =>
      simp only [h2] at h
      have hs : (self.get ch room ev).1 = s' := congrArg Prod.fst h
      constructor
      · intro r n
        rw [← hs]
        exact (get_state self ch room ev).2 r n
      · rw [← hs]
        exact (get_state self ch room ev).1
    | ok maps =>
      simp only [h2] at h
      by_cases hsame : sameNames maps.1 maps.2 = true
      · rw [if_pos hsame] at h
        exact absurd h (by simp)
      · rw [if_neg hsame] at h
        exact absurd h (by simp)

/-- Claim C4 (amended): a (room, name) pair that is present in the
cache at the start of a call is never queried from the store by that
call; names absent from the cache are queried once per resolution that
refers to them (twice in one call when both resolutions miss on the
same name, as the counterexample shows), and results are committed to
the cache only by the successful commit step. -/
theorem claim_c4_amended (self : AmbiguityCache) (ch : StateChanges)
    (room : String) (ev : MemberEvent) (n : String)
    (h : (self.cacheLookup room n).isSome = true) :
    Query.usersWithDisplayName room n ∉ (self.handle_event ch room ev).2.1 := by
  unfold AmbiguityCache.handle_event
  by_cases hg : ((self.changes room).map
      (fun c => (c ev.event_id).isSome)).getD false = true
  · rw [if_pos hg]; simp
  · rw [if_neg hg]
    cases h2 : (self.get ch room ev).2.2 with
    | error e => simp only [h2]; exact get_no_query self ch room ev n h
    | ok maps =>
      simp only [h2]
      by_cases hsame : sameNames maps.1 maps.2 = true
      · rw [if_pos hsame]; exact get_no_query self ch room ev n h
      · rw [if_neg hsame]; exact get_no_query self ch room ev n h

/-- Claim C6: for a Join/Invite event whose sender differs from the
subject user, the resolved new display name equals the previously
resolved old display name when one exists, and the event's candidate
name only otherwise. -/
theorem claim_c6_trust_policy (self : AmbiguityCache) (ch : StateChanges)
    (room : String) (ev : MemberEvent) (s1 : AmbiguityCache) (l : List Query)
    (old_map new_map : Option AmbiguityMap)
    (hm : ev.content.membership = MembershipState.Join ∨
      ev.content.membership = MembershipState.Invite)
    (hs : ev.sender ≠ ev.state_key)
    (hget : self.get ch room ev = (s1, l, Except.ok (old_map, new_map))) :
    new_map.map AmbiguityMap.display_name =
      some ((old_map.map AmbiguityMap.display_name).getD
        (ev.content.displayname.getD (localpart ev.state_key))) := by
  unfold AmbiguityCache.get at hget
  cases h0 : (resolveOldDisplayName self.store ch room ev).2 with
  | error e => simp only [h0] at hget; exact absurd hget (by simp)
  | ok odn =>
    simp only [h0] at hget
    cases h1 : (self.oldStep room odn).2.2 with
    | error e => simp only [h1] at hget; exact absurd hget (by simp)
    | ok om =>
      simp only [h1] at hget
      cases h2 : ((self.oldStep room odn).1.newStep room ev odn).2.2 with
      | error e => simp only [h2] at hget; exact absurd hget (by simp)
      | ok nm =>
        simp only [h2] at hget
        have hmaps : (om, nm) = (old_map, new_map) := by
          have hx := congrArg (fun t => t.2.2) hget
          simpa using hx
        have hom : om = old_map := congrArg Prod.fst hmaps
        have hnm : nm = new_map := congrArg Prod.snd hmaps
        rw [← hom, ← hnm]
        rw [newStep_shape _ room ev odn nm hm h2]
        rw [oldStep_shape self room odn om h1]
        rw [newDisplayName_forged ev odn hs]

/-- Claim C9: an existing (room, name) entry of the cache is never
removed by `handle_event` — committed groups are retained under their
display-name keys (even when their user sets become empty, since the
commit re-inserts unconditionally). -/
theorem claim_c9_no_pruning (self : AmbiguityCache) (ch : StateChanges)
    (room : String) (ev : MemberEvent) (r n : String)
    (h : (self.cacheLookup r n).isSome = true) :
    (((self.handle_event ch room ev).1).cacheLookup r n).isSome = true := by
  unfold AmbiguityCache.handle_event
  by_cases hg : ((self.changes room).map
      (fun c => (c ev.event_id).isSome)).getD false = true
  · rw [if_pos hg]; exact h
  · rw [if_neg hg]
    have hpres : (((self.get ch room ev).1).cacheLookup r n).isSome = true := by
      rw [(get_state self ch room ev).2 r n]; exact h
    cases h2 : (self.get ch room ev).2.2 with
    | error e => simp only [h2]; exact hpres
    | ok maps =>
      simp only [h2]
      by_cases hsame : sameNames maps.1 maps.2 = true
      · rw [if_pos hsame]; exact hpres
      · rw [if_neg hsame]
        rw [add_change_cache]
        exact update_isSome _ room _ _ r n hpres

/-- Witness for claim C5 (amended) at a concrete recorded event. -/
theorem claim_c5_amended_witness :
    recordedCache.handle_event changesU "r" evSameBob =
      (recordedCache, [], Except.ok ()) :=
  claim_c5_amended recordedCache changesU "r" evSameBob rfl

/-- Witness for claim C1 (amended) at the concrete same-name scenario. -/
theorem claim_c1_amended_witness :
    (AmbiguityCache.new storeU).handle_event changesU "r" evSameBob =
      (sSame1,
        [Query.profile "r" "u", Query.usersWithDisplayName "r" "Bob",
          Query.usersWithDisplayName "r" "Bob"], Except.ok ()) :=
  (claim_c1_amended (AmbiguityCache.new storeU) changesU "r" evSameBob sSame1
    [Query.profile "r" "u", Query.usersWithDisplayName "r" "Bob",
      Query.usersWithDisplayName "r" "Bob"]
    ⟨"Bob", ["u"]⟩ ⟨"Bob", ["u"]⟩ rfl rfl rfl).1

/-- Witness for claim C2 (amended) at the concrete ambiguation
scenario. -/
theorem claim_c2_amended_witness :
    ((AmbiguityCache.new storeBob).handle_event noChanges "r"
        evJoinBob).1.changeLookup "r" "e1" =
      some (applyMaps none (some ⟨"Bob", ["a"]⟩) "b").2.2 :=
  (claim_c2_amended (AmbiguityCache.new storeBob) noChanges "r" evJoinBob
    sBob1 [Query.memberEvent "r" "b", Query.usersWithDisplayName "r" "Bob"]
    none (some ⟨"Bob", ["a"]⟩) rfl rfl rfl).2

/-- Witness for claim C3 (amended) at the concrete failing store. -/
theorem claim_c3_amended_witness :
    (resFail.1).changes = (AmbiguityCache.new storeFail).changes :=
  (claim_c3_amended (AmbiguityCache.new storeFail) noChanges "r" evJoinBob
    resFail.1
    [Query.memberEvent "r" "b", Query.usersWithDisplayName "r" "Bob"]
    ⟨7⟩ rfl).2

/-- Witness for claim C4 (amended) at a concrete pre-seeded cache. -/
theorem claim_c4_amended_witness :
    Query.usersWithDisplayName "r" "Bob" ∉
      (seededBob.handle_event changesU "r" evSameBob).2.1 :=
  claim_c4_amended seededBob changesU "r" evSameBob "Bob" rfl

/-- Witness for claim C6 at the concrete forged-sender scenario. -/
theorem claim_c6_trust_policy_witness :
    (some (⟨"Alice", ["u"]⟩ : AmbiguityMap)).map AmbiguityMap.display_name =
      some (((some (⟨"Alice", ["u"]⟩ : AmbiguityMap)).map
        AmbiguityMap.display_name).getD
        (evForged.content.displayname.getD (localpart evForged.state_key))) :=
  claim_c6_trust_policy (AmbiguityCache.new storeAlice) changesAlice "r"
    evForged sAlice1
    [Query.profile "r" "u", Query.usersWithDisplayName "r" "Alice",
      Query.usersWithDisplayName "r" "Alice"]
    (some ⟨"Alice", ["u"]⟩) (some ⟨"Alice", ["u"]⟩)
    (Or.inl rfl) (by decide) rfl

/-- Witness for claim C9 at a concrete pre-seeded cache. -/
theorem claim_c9_no_pruning_witness :
    (((seededBob.handle_event noChanges "r" evJoinBob).1).cacheLookup "r"
      "Bob").isSome = true :=
  claim_c9_no_pruning seededBob noChanges "r" evJoinBob "r" "Bob" rfl
